import Mathlib

/-!
Shallow embedding of the reconciliation-and-execution engine of
kva3umoda/sql-migrate (Go).  The planner (`toApplyMigrations`, `toCatchup`,
`planMigrationCommon`) and the executor (`applyMigration`, `applyMigrations`,
`saveMigration`, `skipMax`) are translated from `executor.go` and
`migrate.go`; the bookkeeping repository is modelled as explicit state.
-/

namespace SqlMigrate

/-- Direction of a migration run, from `executor.go` (`Up`, `Down`). -/
inductive MigrationDirection where
  | Up
  | Down
deriving Repr, DecidableEq

/-- Modelled from the spec: the `Migration` value type is absent from the
available sources (only its callers, the `byId` wrapper and the tests are);
per the spec's data model it carries an `Id`, the ordered up and down
statement lists, and the two per-direction transaction-disable flags. -/
structure Migration where
  Id : String
  Up : List String
  Down : List String
  DisableTransactionUp : Bool
  DisableTransactionDown : Bool
deriving Repr, DecidableEq

instance : Inhabited Migration := ⟨⟨"", [], [], false, false⟩⟩

/-- The empty `Migration{}` value used as the zero cursor marker. -/
def Migration.zero : Migration := ⟨"", [], [], false, false⟩

/-- Whether the Id starts with a decimal digit (has a numeric prefix). -/
def Migration.isNumeric (m : Migration) : Bool :=
  match m.Id.data with
  | [] => false
  | c :: _ => c.isDigit

/-- Leading run of decimal digits of a character list. -/
def leadingDigits : List Char → List Char
  | [] => []
  | c :: cs => if c.isDigit then c :: leadingDigits cs else []

/-- Numeric value of a digit run (most significant first). -/
def digitsToNat (ds : List Char) : Nat :=
  ds.foldl (fun n c => n * 10 + (c.toNat - 48)) 0

/-- Modelled from the spec: the derived numeric "version" of a migration is
the integer value of the leading digit run of its `Id`; a non-numeric prefix
yields the zero ordering key.  The Go method `Migration.VersionInt` is absent
from the available sources. -/
def Migration.VersionInt (m : Migration) : Nat :=
  digitsToNat (leadingDigits m.Id.data)

/-- Lexicographic order on character lists, Go's `<` on strings. -/
def charListLt : List Char → List Char → Bool
  | [], [] => false
  | [], _ :: _ => true
  | _ :: _, [] => false
  | a :: as, b :: bs =>
    if a < b then true else if b < a then false else charListLt as bs

/-- Plain lexicographic comparison of two strings (Go's `s < t`). -/
def strLt (a b : String) : Bool := charListLt a.data b.data

/-- Modelled from the spec: the ordering relation `Migration.Less` is absent
from the available sources.  The spec's data model describes comparison by
`Id`, and the repository's own test `TestAlphaNumericMigrations` fixes the
order on concrete inputs to be numeric-prefix aware: migrations with a
numeric-prefixed Id sort before those without; two numeric-prefixed Ids
compare by their derived version (ties broken by the Id string); two
non-numeric Ids compare by the Id string. -/
def Migration.Less (m other : Migration) : Bool :=
  if m.isNumeric && !other.isNumeric then true
  else if !m.isNumeric && other.isNumeric then false
  else if m.isNumeric && other.isNumeric then
    if m.VersionInt ≠ other.VersionInt then decide (m.VersionInt < other.VersionInt)
    else strLt m.Id other.Id
  else strLt m.Id other.Id

/-- Insert one migration into a list sorted by `Migration.Less`. -/
def insertById (m : Migration) : List Migration → List Migration
  | [] => [m]
  | x :: xs => if m.Less x then m :: x :: xs else x :: insertById m xs

/-- Sorting by Id, modelling `sort.Sort(byId(migrations))` from the source:
the comparison is `byId.Less`, which delegates to `Migration.Less`. -/
def sortById (ms : List Migration) : List Migration :=
  ms.foldr insertById []

/-- A step of a plan: one migration together with the statement list and the
transaction-disable flag chosen for the requested direction (the
`PlannedMigration` struct; its fields follow its construction sites in
`executor.go`). -/
structure PlannedMigration where
  Migration : Migration
  Queries : List String
  DisableTransaction : Bool
deriving Repr, DecidableEq

/-- `PlannedMigration` embeds the migration, so `.Id` resolves to its Id. -/
def PlannedMigration.Id (p : PlannedMigration) : String := p.Migration.Id

/-- `toApplyMigrations` from `executor.go`: position of the cursor in the
list.  The Go loop leaves `index = -1` when `current` is empty or the list is
empty, the index of the first match when `current` occurs, and `len-1` when
`current` is non-empty but never matches. -/
def cursorScan (current : String) : List Migration → Int
  | [] => -1
  | m :: rest => if m.Id = current then 0 else 1 + cursorScan current rest

/-- The cursor search of `toApplyMigrations`: `-1` for the empty cursor or
an empty list, else the first matching position, else `len - 1`. -/
def findIndexCursor (migrations : List Migration) (current : String) : Int :=
  if current = "" then -1 else cursorScan current migrations

/-- `toApplyMigrations` from `executor.go`: filter a slice of migrations into
ones that should be applied.  Up: everything after the cursor; Down:
everything up to and including the cursor, reversed (empty when the cursor
index is `-1`). -/
def toApplyMigrations (migrations : List Migration) (current : String)
    (direction : MigrationDirection) : List Migration :=
  let index := findIndexCursor migrations current
  match direction with
  | .Up => migrations.drop (index + 1).toNat
  | .Down =>
      if index = -1 then []
      else (migrations.take (index + 1).toNat).reverse

/-- `toCatchup` from `executor.go`: migrations absent from the applied
history whose Id sorts strictly before the last-run migration, each wrapped
as an up-step, in discovery order. -/
def toCatchup (migrations existingMigrations : List Migration)
    (lastRun : Migration) : List PlannedMigration :=
  migrations.filterMap (fun migration =>
    let found := existingMigrations.any (fun existing => existing.Id == migration.Id)
    if !found && migration.Less lastRun then
      some { Migration := migration
             Queries := migration.Up
             DisableTransaction := migration.DisableTransactionUp }
    else none)

/-- Errors produced by the planner (`newPlanError` call sites in
`executor.go`): an applied record unknown to the discovered set, or a
version-bounding failure naming the requested version. -/
inductive PlanError where
  | unknownMigration (id : String)
  | unknownVersion (version : Int)
deriving Repr, DecidableEq

/-- The version-bounding scan of `planMigrationCommon` (`executor.go`):
walk the primary candidate list; a version past the target (Up) or below it
(Down) is fatal, an exact hit fixes the step count, exhaustion without a hit
is fatal. -/
def scanVersion (dir : MigrationDirection) (version : Int) :
    List Migration → Except PlanError Nat
  | [] => .error (.unknownVersion version)
  | m :: rest =>
    let tempVersion : Int := (m.VersionInt : Int)
    if (dir = .Up ∧ tempVersion > version) ∨ (dir = .Down ∧ tempVersion < version) then
      .error (.unknownVersion version)
    else if tempVersion = version then .ok 1
    else do
      let n ← scanVersion dir version rest
      pure (n + 1)

/-- A bookkeeping record stub, as `planMigrationCommon` builds one
`Migration{Id: record.Id}` per stored record before sorting. -/
def recordStub (id : String) : Migration := ⟨id, [], [], false, false⟩

/-- Wrap one candidate into a `PlannedMigration` for the requested
direction, as the plan-assembly loop of `planMigrationCommon` does. -/
def plannedFor (dir : MigrationDirection) (v : Migration) : PlannedMigration :=
  match dir with
  | .Up => { Migration := v, Queries := v.Up, DisableTransaction := v.DisableTransactionUp }
  | .Down => { Migration := v, Queries := v.Down, DisableTransaction := v.DisableTransactionDown }

/-- The cursor of `planMigrationCommon`: the last element of the sorted
applied history, or the zero marker `Migration{}` when the history is
empty. -/
def planCursor (existingMigrations : List Migration) : Migration :=
  match existingMigrations.getLast? with
  | some r => r
  | none => Migration.zero

/-- The body of `planMigrationCommon` after the unknown-record check:
cursor, catch-up set, primary candidates, bounding and plan assembly. -/
def planBody (migrations existingMigrations : List Migration)
    (dir : MigrationDirection) (max : Int) (version : Int) :
    Except PlanError (List PlannedMigration) := do
  let record := planCursor existingMigrations
  let result : List PlannedMigration :=
    if existingMigrations.length > 0 then
      toCatchup migrations existingMigrations record
    else []
  let toApply := toApplyMigrations migrations record.Id dir
  let toApplyCount ←
    if version ≥ 0 then
      scanVersion dir version toApply
    else
      pure (if max > 0 ∧ max < (toApply.length : Int) then max.toNat
            else toApply.length)
  pure (result ++ (toApply.take toApplyCount).map (plannedFor dir))

/-- `planMigrationCommon` from `executor.go`, restricted to its pure
reconciliation core: the stored record Ids stand in for the repository
snapshot, `max` and `version` are the two bounds (`version = -1` meaning no
target version, as `PlanMigration` passes), and `ignoreUnknown` is the
executor's `IgnoreUnknown` toggle. -/
def planMigrationCommon (migrations : List Migration) (recordIds : List String)
    (dir : MigrationDirection) (max : Int) (version : Int)
    (ignoreUnknown : Bool) : Except PlanError (List PlannedMigration) := do
  let existingMigrations := sortById (recordIds.map recordStub)
  if !ignoreUnknown then
    match existingMigrations.find?
        (fun e => !(migrations.any (fun m => m.Id == e.Id))) with
    | some e => throw (.unknownMigration e.Id)
    | none => pure ()
  planBody migrations existingMigrations dir max version

/-! ## Executor model

The database handle, transactions and the bookkeeping table are modelled as
explicit state; an environment of failure switches stands in for the
fallible driver calls. -/

/-- Which driver call failed (the `error` causes wrapped by `newTxError`). -/
inductive DbErr where
  | beginErr
  | execErr (stmt : String)
  | saveErr (id : String)
  | deleteErr (id : String)
  | commitErr
deriving Repr, DecidableEq

/-- A `newTxError` value: the failing migration's identity plus the cause. -/
structure TxError where
  migrationId : String
  cause : DbErr
deriving Repr, DecidableEq

/-- Failure switches of the modelled database driver. -/
structure DbEnv where
  execFails : String → Bool
  saveFails : String → Bool
  deleteFails : String → Bool
  beginFails : Bool
  commitFails : String → Bool

/-- An environment in which every driver call succeeds. -/
def okEnv : DbEnv :=
  { execFails := fun _ => false
    saveFails := fun _ => false
    deleteFails := fun _ => false
    beginFails := false
    commitFails := fun _ => false }

/-- Observable database state: the bookkeeping records (insertion order),
the log of executed migration statements, and the insert/delete logs of the
bookkeeping table. -/
structure DbState where
  records : List String
  applied : List String
  inserts : List String
  deletes : List String
deriving Repr, DecidableEq

/-- The empty database: no bookkeeping records, nothing executed. -/
def DbState.empty : DbState := ⟨[], [], [], []⟩

/-- Trim a single occurrence of a suffix, as Go's `strings.TrimSuffix`. -/
def trimSuffixOnce (s suffix : String) : String :=
  if suffix.data.isSuffixOf s.data then
    ⟨s.data.take (s.data.length - suffix.data.length)⟩
  else s

/-- The statement normalization of `applyMigration` (`executor.go`): trim a
single trailing newline, then a single trailing space, then a single
trailing semicolon. -/
def trimStmt (s : String) : String :=
  trimSuffixOnce (trimSuffixOnce (trimSuffixOnce s "\n") " ") ";"

/-- Run the statement list of one step in order; stop at the first failing
statement.  Returns the state reached and the failing trimmed statement, if
any. -/
def runStmts (env : DbEnv) (st : DbState) :
    List String → DbState × Option String
  | [] => (st, none)
  | stmt :: rest =>
    let t := trimStmt stmt
    if env.execFails t then (st, some t)
    else runStmts env { st with applied := st.applied ++ [t] } rest

/-- Bookkeeping write: `Repository.SaveMigration` (INSERT of the record). -/
def DbState.save (st : DbState) (id : String) : DbState :=
  { st with records := st.records ++ [id], inserts := st.inserts ++ [id] }

/-- Bookkeeping delete: `Repository.DeleteMigration` (DELETE by id). -/
def DbState.del (st : DbState) (id : String) : DbState :=
  { st with records := st.records.filter (fun r => r ≠ id),
            deletes := st.deletes ++ [id] }

/-- `applyMigration` from `executor.go`: one planned step.  With the
transaction enabled (flag unset) every failure — begin, statement,
bookkeeping, commit — leaves the state unchanged (rollback / no commit);
with the flag set the partial effects persist.  Statements run first, then
the bookkeeping insert (Up) or delete (Down), then the commit. -/
def applyMigration (env : DbEnv) (dir : MigrationDirection) (st : DbState)
    (m : PlannedMigration) : DbState × Option TxError :=
  if m.DisableTransaction then
    let (st1, f) := runStmts env st m.Queries
    match f with
    | some stmt => (st1, some ⟨m.Id, .execErr stmt⟩)
    | none =>
      match dir with
      | .Up =>
          if env.saveFails m.Id then (st1, some ⟨m.Id, .saveErr m.Id⟩)
          else (st1.save m.Id, none)
      | .Down =>
          if env.deleteFails m.Id then (st1, some ⟨m.Id, .deleteErr m.Id⟩)
          else (st1.del m.Id, none)
  else
    if env.beginFails then (st, some ⟨m.Id, .beginErr⟩)
    else
      let (st1, f) := runStmts env st m.Queries
      match f with
      | some stmt => (st, some ⟨m.Id, .execErr stmt⟩)
      | none =>
        match dir with
        | .Up =>
            if env.saveFails m.Id then (st, some ⟨m.Id, .saveErr m.Id⟩)
            else if env.commitFails m.Id then (st, some ⟨m.Id, .commitErr⟩)
            else (st1.save m.Id, none)
        | .Down =>
            if env.deleteFails m.Id then (st, some ⟨m.Id, .deleteErr m.Id⟩)
            else if env.commitFails m.Id then (st, some ⟨m.Id, .commitErr⟩)
            else (st1.del m.Id, none)

/-- `applyMigrations` from `executor.go`: run the plan strictly in order,
stopping at the first failing step; the returned count is the number of
fully applied steps. -/
def applyMigrations (env : DbEnv) (dir : MigrationDirection) (st : DbState) :
    List PlannedMigration → Nat × DbState × Option TxError
  | [] => (0, st, none)
  | m :: rest =>
    match applyMigration env dir st m with
    | (st1, some e) => (0, st1, some e)
    | (st1, none) =>
      let (n, st2, e) := applyMigrations env dir st1 rest
      (n + 1, st2, e)

/-- `saveMigration` from `executor.go`, used by `SkipMax`: only the
bookkeeping insert, inside a transaction unless the step's flag disables
it.  No statement of the step is executed, and the insert happens for every
direction. -/
def saveMigration (env : DbEnv) (st : DbState) (m : PlannedMigration) :
    DbState × Option TxError :=
  if m.DisableTransaction then
    if env.saveFails m.Id then (st, some ⟨m.Id, .saveErr m.Id⟩)
    else (st.save m.Id, none)
  else
    if env.beginFails then (st, some ⟨m.Id, .beginErr⟩)
    else if env.saveFails m.Id then (st, some ⟨m.Id, .saveErr m.Id⟩)
    else if env.commitFails m.Id then (st, some ⟨m.Id, .commitErr⟩)
    else (st.save m.Id, none)

/-- The skip loop of `SkipMax` (`executor.go`): record every planned step
without running its statements, stopping at the first bookkeeping failure. -/
def skipSteps (env : DbEnv) (st : DbState) :
    List PlannedMigration → Nat × DbState × Option TxError
  | [] => (0, st, none)
  | m :: rest =>
    match saveMigration env st m with
    | (st1, some e) => (0, st1, some e)
    | (st1, none) =>
      let (n, st2, e) := skipSteps env st1 rest
      (n + 1, st2, e)

/-- `SkipMax` from `executor.go`: plan, then record the planned steps. -/
def skipMax (env : DbEnv) (st : DbState) (migrations : List Migration)
    (recordIds : List String) (dir : MigrationDirection) (max : Int)
    (ignoreUnknown : Bool) : Nat × DbState × Option (PlanError ⊕ TxError) :=
  match planMigrationCommon migrations recordIds dir max (-1) ignoreUnknown with
  | .error e => (0, st, some (.inl e))
  | .ok plan =>
    match skipSteps env st plan with
    | (n, st1, some e) => (n, st1, some (.inr e))
    | (n, st1, none) => (n, st1, none)

/-- Errors surfaced by the execution entry points. -/
inductive ExecError where
  | negativeVersion (version : Int)
  | planErr (e : PlanError)
  | txErr (e : TxError)
deriving Repr, DecidableEq

/-- `ExecMaxContext` (`executor.go`): plan, then apply. -/
def execMax (env : DbEnv) (st : DbState) (migrations : List Migration)
    (recordIds : List String) (dir : MigrationDirection) (max : Int)
    (ignoreUnknown : Bool) : Nat × DbState × Option ExecError :=
  match planMigrationCommon migrations recordIds dir max (-1) ignoreUnknown with
  | .error e => (0, st, some (.planErr e))
  | .ok plan =>
    match applyMigrations env dir st plan with
    | (n, st1, some e) => (n, st1, some (.txErr e))
    | (n, st1, none) => (n, st1, none)

/-- `ExecVersionContext` (`migrate.go` + `executor.go`): a negative target
version is rejected before planning; otherwise plan to the version and
apply. -/
def execVersionContext (env : DbEnv) (st : DbState)
    (migrations : List Migration) (recordIds : List String)
    (dir : MigrationDirection) (version : Int) (ignoreUnknown : Bool) :
    Nat × DbState × Option ExecError :=
  if version < 0 then (0, st, some (.negativeVersion version))
  else
    match planMigrationCommon migrations recordIds dir 0 version ignoreUnknown with
    | .error e => (0, st, some (.planErr e))
    | .ok plan =>
      match applyMigrations env dir st plan with
      | (n, st1, some e) => (n, st1, some (.txErr e))
      | (n, st1, none) => (n, st1, none)

/-! ## Helper lemmas -/

theorem cursorScan_not_mem (current : String) (M : List Migration)
    (h : ∀ m ∈ M, m.Id ≠ current) :
    cursorScan current M = (M.length : Int) - 1 := by
  induction M with
  | nil => simp [cursorScan]
  | cons x xs ih =>
    have hx : x.Id ≠ current := h x (by simp)
    simp only [cursorScan, if_neg hx]
    rw [ih (fun m hm => h m (by simp [hm]))]
    simp only [List.length_cons]
    omega

theorem cursorScan_get (current : String) (M : List Migration) (k : Nat)
    (hk : k < M.length) (hnd : (M.map Migration.Id).Nodup)
    (hid : (M.get ⟨k, hk⟩).Id = current) :
    cursorScan current M = (k : Int) := by
  induction M generalizing k with
  | nil => simp at hk
  | cons x xs ih =>
    match k with
    | 0 =>
      simp at hid
      simp [cursorScan, hid]
    | k + 1 =>
      have hk' : k < xs.length := by simpa using hk
      have hx : x.Id ≠ current := by
        intro hEq
        simp [List.nodup_cons] at hnd
        have h2 : (xs.get ⟨k, hk'⟩).Id = current := by simpa using hid
        exact hnd.1 (xs.get ⟨k, hk'⟩) (xs.get_mem k hk') (by rw [h2, hEq])
      simp only [cursorScan, if_neg hx]
      rw [ih k hk' (by simp [List.nodup_cons] at hnd; exact hnd.2) (by simpa using hid)]
      omega

/-- The three example migrations of `toapply_test.go`. -/
def demoAbc : Migration := ⟨"abc", [], [], false, false⟩

def demoCde : Migration := ⟨"cde", [], [], false, false⟩

def demoEfg : Migration := ⟨"efg", [], [], false, false⟩

def demoM : List Migration := [demoAbc, demoCde, demoEfg]

theorem insertById_perm (m : Migration) (l : List Migration) :
    (insertById m l).Perm (m :: l) := by
  induction l with
  | nil => simp [insertById]
  | cons x xs ih =>
    simp only [insertById]
    split
    · exact List.Perm.refl _
    · exact (ih.cons x).trans (List.Perm.swap m x xs)

theorem sortById_perm (l : List Migration) : (sortById l).Perm l := by
  induction l with
  | nil => simp [sortById]
  | cons x xs ih =>
    simp only [sortById, List.foldr_cons]
    exact (insertById_perm x _).trans (ih.cons x)

/-! ## Claim theorems -/

/-- C1: for an Id-sorted migration list with a cursor sitting at position
`k` (the migration whose Id equals the greatest applied Id), the primary
candidate set is everything strictly after the cursor in list order for
direction Up, and everything from the start of the list up to and including
the cursor, reversed, for direction Down; with the zero cursor (empty
history) a Down candidate set — and the whole Down plan — is empty. -/
theorem toApplyMigrations_primary_set (M : List Migration) (k : Nat)
    (hk : k < M.length) (hnd : (M.map Migration.Id).Nodup)
    (hid : (M.get ⟨k, hk⟩).Id ≠ "") :
    toApplyMigrations M (M.get ⟨k, hk⟩).Id .Up = M.drop (k + 1) ∧
    toApplyMigrations M (M.get ⟨k, hk⟩).Id .Down = (M.take (k + 1)).reverse ∧
    toApplyMigrations M "" .Down = [] ∧
    (∀ (max : Int) (ig : Bool),
      planMigrationCommon M [] .Down max (-1) ig = .ok []) := by
  have hscan := cursorScan_get (M.get ⟨k, hk⟩).Id M k hk hnd rfl
  refine ⟨?_, ?_, ?_, ?_⟩
  · unfold toApplyMigrations findIndexCursor
    rw [if_neg hid, hscan]
    have h1 : ((k : Int) + 1).toNat = k + 1 := by omega
    simp only [h1]
  · unfold toApplyMigrations findIndexCursor
    rw [if_neg hid, hscan]
    have hne2 : ¬((k : Int) = -1) := by omega
    have h1 : ((k : Int) + 1).toNat = k + 1 := by omega
    simp only [hne2, ite_false, h1]
  · unfold toApplyMigrations findIndexCursor
    simp
  · intro max ig
    cases ig <;>
      simp [planMigrationCommon, planBody, planCursor, sortById,
        toApplyMigrations, findIndexCursor, Migration.zero] <;>
      rfl

/-- Witness for C1: the `cde` cursor of the test set, position 1. -/
theorem toApplyMigrations_primary_set_witness :
    toApplyMigrations demoM (demoM.get ⟨1, by decide⟩).Id .Up = demoM.drop 2 ∧
    toApplyMigrations demoM (demoM.get ⟨1, by decide⟩).Id .Down =
      (demoM.take 2).reverse ∧
    toApplyMigrations demoM "" .Down = [] ∧
    (∀ (max : Int) (ig : Bool),
      planMigrationCommon demoM [] .Down max (-1) ig = .ok []) :=
  toApplyMigrations_primary_set demoM 1 (by decide) (by decide) (by decide)

/-- C10: when the cursor Id is non-empty but matches no discovered
migration (reachable only with the ignore-unknown toggle enabled), the
candidate scan runs off the end of the list: an Up candidate set is empty
and a Down candidate set is the whole discovered list in descending order. -/
theorem toApplyMigrations_unknown_cursor (M : List Migration)
    (current : String) (hne : current ≠ "")
    (habs : ∀ m ∈ M, m.Id ≠ current) :
    toApplyMigrations M current .Up = [] ∧
    toApplyMigrations M current .Down = M.reverse := by
  have hscan := cursorScan_not_mem current M habs
  unfold toApplyMigrations findIndexCursor
  rw [if_neg hne, hscan]
  constructor
  · have h1 : ((M.length : Int) - 1 + 1).toNat = M.length := by omega
    simp only [h1, List.drop_length]
  · cases M with
    | nil => simp
    | cons x xs =>
      have hne2 : ¬(((x :: xs).length : Int) - 1 = -1) := by
        simp only [List.length_cons]; omega
      simp only [hne2, if_neg, ite_false]
      have h1 : (((x :: xs).length : Int) - 1 + 1).toNat = (x :: xs).length := by
        simp only [List.length_cons]; omega
      rw [h1, List.take_length]

/-- Witness for C10: the `zzz` cursor of `TestGetDone` / `TestDownAll`. -/
theorem toApplyMigrations_unknown_cursor_witness :
    toApplyMigrations demoM "zzz" .Up = [] ∧
    toApplyMigrations demoM "zzz" .Down = demoM.reverse :=
  toApplyMigrations_unknown_cursor demoM "zzz" (by decide) (by decide)

/-- C4: with the ignore-unknown toggle off, an applied record whose Id is
absent from the discovered set fails the whole plan with an error naming an
offending Id before any statement executes (the execution entry point
returns zero applied steps and an unchanged database); with the toggle on,
planning proceeds. -/
theorem plan_unknown_record_check (env : DbEnv) (st : DbState)
    (M : List Migration) (recs : List String) (dir : MigrationDirection)
    (max : Int) (hstray : ∃ r ∈ recs, ∀ m ∈ M, m.Id ≠ r) :
    (∃ id, (∀ m ∈ M, m.Id ≠ id) ∧ id ∈ recs ∧
      planMigrationCommon M recs dir max (-1) false =
        .error (.unknownMigration id) ∧
      execMax env st M recs dir max false =
        (0, st, some (.planErr (.unknownMigration id)))) ∧
    (planMigrationCommon M recs dir max (-1) true).isOk = true := by
  constructor
  · obtain ⟨r, hr, hrabs⟩ := hstray
    have hperm := sortById_perm (recs.map recordStub)
    have hmem : recordStub r ∈ sortById (recs.map recordStub) := by
      rw [hperm.mem_iff]
      exact List.mem_map_of_mem recordStub hr
    have hsome : ((sortById (recs.map recordStub)).find?
        (fun e => !(M.any (fun m => m.Id == e.Id)))).isSome = true := by
      rw [List.find?_isSome]
      refine ⟨recordStub r, hmem, ?_⟩
      simp [recordStub]
      intro m hm
      exact hrabs m hm
    obtain ⟨e, he⟩ := Option.isSome_iff_exists.mp hsome
    have hpe := List.find?_some he
    have hemem := List.mem_of_find?_eq_some he
    have heid : e.Id ∈ recs := by
      rw [hperm.mem_iff] at hemem
      obtain ⟨r', hr', hrec⟩ := List.mem_map.mp hemem
      rw [← hrec]
      exact hr'
    have habs : ∀ m ∈ M, m.Id ≠ e.Id := by
      intro m hm
      simp at hpe
      exact hpe m hm
    refine ⟨e.Id, habs, heid, ?_, ?_⟩
    · simp only [planMigrationCommon, Bool.not_false, if_true]
      rw [he]
      rfl
    · simp only [execMax]
      have hplan : planMigrationCommon M recs dir max (-1) false =
          .error (.unknownMigration e.Id) := by
        simp only [planMigrationCommon, Bool.not_false, if_true]
        rw [he]
        rfl
      rw [hplan]
  · rfl

/-- Witness for C4: history seeded with `zzz`, absent from the test set. -/
theorem plan_unknown_record_check_witness :
    (∃ id, (∀ m ∈ demoM, m.Id ≠ id) ∧ id ∈ ["zzz"] ∧
      planMigrationCommon demoM ["zzz"] .Up 0 (-1) false =
        .error (.unknownMigration id) ∧
      execMax okEnv DbState.empty demoM ["zzz"] .Up 0 false =
        (0, DbState.empty, some (.planErr (.unknownMigration id)))) ∧
    (planMigrationCommon demoM ["zzz"] .Up 0 (-1) true).isOk = true :=
  plan_unknown_record_check okEnv DbState.empty demoM ["zzz"] .Up 0
    ⟨"zzz", by decide, by decide⟩


/-- When every record Id is known (or the toggle is on), the check passes. -/
theorem planMigrationCommon_eq_planBody (M : List Migration)
    (recs : List String) (dir : MigrationDirection) (max version : Int)
    (ig : Bool) (hchk : ig = true ∨ ∀ r ∈ recs, ∃ m ∈ M, m.Id = r) :
    planMigrationCommon M recs dir max version ig =
      planBody M (sortById (recs.map recordStub)) dir max version := by
  rcases hchk with hig | hall
  · subst hig
    rfl
  · have hnone : (sortById (recs.map recordStub)).find?
        (fun e => !(M.any (fun m => m.Id == e.Id))) = none := by
      rw [List.find?_eq_none]
      intro e he
      have he2 : e ∈ recs.map recordStub :=
        (sortById_perm (recs.map recordStub)).mem_iff.mp he
      obtain ⟨r, hr, hrec⟩ := List.mem_map.mp he2
      obtain ⟨m, hm, hmid⟩ := hall r hr
      simp
      refine ⟨m, hm, ?_⟩
      rw [hmid, ← hrec]
      rfl
    cases ig
    · simp only [planMigrationCommon, Bool.not_false, if_true, hnone]
      rfl
    · rfl

def versionViolation (dir : MigrationDirection) (version : Int)
    (m : Migration) : Prop :=
  (dir = .Up ∧ (m.VersionInt : Int) > version) ∨
  (dir = .Down ∧ (m.VersionInt : Int) < version)

instance (dir : MigrationDirection) (version : Int) (m : Migration) :
    Decidable (versionViolation dir version m) := by
  unfold versionViolation
  infer_instance

/-- A candidate that neither violates monotonicity nor hits the target. -/
def safeMig (dir : MigrationDirection) (version : Int) (m : Migration) : Prop :=
  ¬ versionViolation dir version m ∧ (m.VersionInt : Int) ≠ version

/-- The target version is reached cleanly: some candidate carries exactly
the target version and every earlier candidate is safe. -/
def cleanHit (dir : MigrationDirection) (version : Int)
    (L : List Migration) : Prop :=
  ∃ (i : Nat) (h : i < L.length), ((L.get ⟨i, h⟩).VersionInt : Int) = version ∧
    ∀ m' ∈ L.take i, safeMig dir version m'

theorem scanVersion_isOk_iff (dir : MigrationDirection) (version : Int)
    (L : List Migration) :
    (∃ n, scanVersion dir version L = .ok n) ↔ cleanHit dir version L := by
  induction L with
  | nil =>
    constructor
    · rintro ⟨n, hn⟩
      simp [scanVersion] at hn
    · rintro ⟨i, h, _⟩
      simp at h
  | cons m rest ih =>
    by_cases hv : versionViolation dir version m
    · have hscan : scanVersion dir version (m :: rest) =
          .error (.unknownVersion version) := by
        simp only [scanVersion]
        rw [if_pos]
        rcases hv with ⟨hd, hgt⟩ | ⟨hd, hlt⟩
        · exact Or.inl ⟨hd, hgt⟩
        · exact Or.inr ⟨hd, hlt⟩
      constructor
      · rintro ⟨n, hn⟩
        rw [hscan] at hn
        exact absurd hn (by simp)
      · rintro ⟨i, h, hhit, hsafe⟩
        match i with
        | 0 =>
          simp at hhit
          rcases hv with ⟨_, hgt⟩ | ⟨_, hlt⟩ <;> omega
        | i + 1 =>
          have hm : m ∈ (m :: rest).take (i + 1) := by simp
          exact absurd hv (hsafe m hm).1
    · have hv' : ¬(dir = MigrationDirection.Up ∧ (m.VersionInt : Int) > version ∨
          dir = MigrationDirection.Down ∧ (m.VersionInt : Int) < version) := hv
      by_cases hh : ((m.VersionInt : Int) = version)
      · have hscan : scanVersion dir version (m :: rest) = .ok 1 := by
          simp only [scanVersion]
          rw [if_neg hv', if_pos hh]
        constructor
        · intro _
          exact ⟨0, by simp, by simpa using hh, by simp⟩
        · intro _
          exact ⟨1, hscan⟩
      · have hscan : scanVersion dir version (m :: rest) =
            (scanVersion dir version rest).map (fun n => n + 1) := by
          simp only [scanVersion]
          rw [if_neg hv', if_neg hh]
          cases scanVersion dir version rest <;> rfl
        constructor
        · rintro ⟨n, hn⟩
          rw [hscan] at hn
          match hrest : scanVersion dir version rest with
          | .error e => rw [hrest] at hn; exact absurd hn (by simp [Except.map])
          | .ok n' =>
            have : cleanHit dir version rest := ih.mp ⟨n', hrest⟩
            obtain ⟨i, h, hhit, hsafe⟩ := this
            refine ⟨i + 1, by simpa using Nat.succ_lt_succ h, by simpa using hhit, ?_⟩
            intro m' hm'
            simp only [List.take_succ_cons] at hm'
            rcases List.mem_cons.mp hm' with heq | hmem
            · subst heq
              exact ⟨hv, hh⟩
            · exact hsafe m' hmem
        · rintro ⟨i, h, hhit, hsafe⟩
          match i with
          | 0 => simp at hhit; exact absurd hhit hh
          | i + 1 =>
            have hch : cleanHit dir version rest := by
              refine ⟨i, by simpa using h, by simpa using hhit, ?_⟩
              intro m' hm'
              exact hsafe m' (by simp [List.take_succ_cons, hm'])
            obtain ⟨n', hn'⟩ := ih.mpr hch
            refine ⟨n' + 1, ?_⟩
            rw [hscan, hn']
            rfl

theorem scanVersion_error_val (dir : MigrationDirection) (ver : Int)
    (L : List Migration) (e : PlanError)
    (h : scanVersion dir ver L = .error e) : e = .unknownVersion ver := by
  induction L with
  | nil =>
    simp only [scanVersion] at h
    cases h
    rfl
  | cons m rest ih =>
    simp only [scanVersion] at h
    split at h
    · cases h
      rfl
    · split at h
      · cases h
      · match hrest : scanVersion dir ver rest with
        | .error e' =>
          rw [hrest] at h
          cases h
          exact ih hrest
        | .ok n =>
          rw [hrest] at h
          cases h


/-- C5: with a target version requested, planning fails with the fatal
"unknown version" error naming the version exactly when the walk over the
primary candidate list, in emission order, meets a migration whose derived
version exceeds the target (Up) or lies below it (Down) before reaching the
exact target, or exhausts the list without an exact hit; and a negative
target version is rejected with an error before planning begins. -/
theorem plan_version_bounding (env : DbEnv) (st : DbState)
    (M : List Migration) (recs : List String) (dir : MigrationDirection)
    (ver : Int) (ig : Bool) (hver : 0 ≤ ver)
    (hchk : ig = true ∨ ∀ r ∈ recs, ∃ m ∈ M, m.Id = r) :
    (planMigrationCommon M recs dir 0 ver ig =
        .error (.unknownVersion ver) ↔
      ¬ cleanHit dir ver
        (toApplyMigrations M
          (planCursor (sortById (recs.map recordStub))).Id dir)) ∧
    (∀ v : Int, v < 0 → ∀ ig2 : Bool,
      execVersionContext env st M recs dir v ig2 =
        (0, st, some (.negativeVersion v))) := by
  constructor
  · rw [planMigrationCommon_eq_planBody M recs dir 0 ver ig hchk]
    set L := toApplyMigrations M
      (planCursor (sortById (recs.map recordStub))).Id dir with hL
    have hbody : planBody M (sortById (recs.map recordStub)) dir 0 ver =
        (scanVersion dir ver L).map
          (fun n =>
            (if (sortById (recs.map recordStub)).length > 0 then
              toCatchup M (sortById (recs.map recordStub))
                (planCursor (sortById (recs.map recordStub)))
            else []) ++ (L.take n).map (plannedFor dir)) := by
      simp only [planBody, if_pos hver, ← hL]
      cases scanVersion dir ver L <;> rfl
    rw [hbody]
    constructor
    · intro herr hclean
      obtain ⟨n, hn⟩ := (scanVersion_isOk_iff dir ver L).mpr hclean
      rw [hn] at herr
      cases herr
    · intro hnc
      match hscan : scanVersion dir ver L with
      | .ok n => exact absurd ((scanVersion_isOk_iff dir ver L).mp ⟨n, hscan⟩) hnc
      | .error e =>
        have := scanVersion_error_val dir ver L e hscan
        subst this
        rfl
  · intro v hv ig2
    simp only [execVersionContext, if_pos hv]

/-- The three versioned migrations of the spec's bounding example. -/
def demoV1 : Migration := ⟨"1_a", [], [], false, false⟩

def demoV2 : Migration := ⟨"2_b", [], [], false, false⟩

def demoV3 : Migration := ⟨"3_c", [], [], false, false⟩

def demoVM : List Migration := [demoV1, demoV2, demoV3]

/-- Witness for C5: target version 99 over the `1_a`,`2_b`,`3_c` set with
history `1_a`. -/
theorem plan_version_bounding_witness :
    (planMigrationCommon demoVM ["1_a"] .Up 0 99 false =
        .error (.unknownVersion 99) ↔
      ¬ cleanHit .Up 99
        (toApplyMigrations demoVM
          (planCursor (sortById (["1_a"].map recordStub))).Id .Up)) ∧
    (∀ v : Int, v < 0 → ∀ ig2 : Bool,
      execVersionContext okEnv DbState.empty demoVM ["1_a"] .Up v ig2 =
        (0, DbState.empty, some (.negativeVersion v))) :=
  plan_version_bounding okEnv DbState.empty demoVM ["1_a"] .Up 99 false
    (by decide) (Or.inr (by decide))


theorem perm_any {α : Type} (p : α → Bool) {l1 l2 : List α}
    (h : l1.Perm l2) : l1.any p = l2.any p := by
  apply Bool.eq_iff_iff.mpr
  constructor <;> intro hx <;> rw [List.any_eq_true] at hx ⊢ <;>
    obtain ⟨x, hm, hp⟩ := hx
  · exact ⟨x, h.mem_iff.mp hm, hp⟩
  · exact ⟨x, h.mem_iff.mpr hm, hp⟩

theorem any_map2 {α β : Type} (f : α → β) (p : β → Bool) (l : List α) :
    (l.map f).any p = l.any (fun a => p (f a)) := by
  induction l with
  | nil => rfl
  | cons x xs ih => simp [ih]

theorem filterMap_if {α β : Type} (p : α → Bool) (g : α → β) (l : List α) :
    l.filterMap (fun a => if p a then some (g a) else none) =
      (l.filter p).map g := by
  induction l with
  | nil => rfl
  | cons x xs ih =>
    by_cases h : p x <;>
      simp [List.filterMap_cons, List.filter_cons, h, ih]

theorem toCatchup_eq (M existing : List Migration) (last : Migration) :
    toCatchup M existing last =
      (M.filter (fun m =>
          !(existing.any (fun e => e.Id == m.Id)) && m.Less last)).map
        (fun m => ⟨m, m.Up, m.DisableTransactionUp⟩) := by
  unfold toCatchup
  exact filterMap_if _ _ M

theorem existing_any_eq (recs : List String) (id : String) :
    ((sortById (recs.map recordStub)).any (fun e => e.Id == id)) =
      recs.any (fun r => r == id) := by
  rw [perm_any _ (sortById_perm (recs.map recordStub)), any_map2]
  rfl

/-- C2: for a non-empty applied history, every discovered migration absent
from the history that sorts strictly before the cursor becomes a catch-up
step carrying its up-statement list and up transaction-disable flag, in
ascending (discovery) order, placed before the primary set regardless of
the requested direction; with an empty history the plan consists of the
primary set alone. -/
theorem plan_catchup_steps (M : List Migration) (recs : List String)
    (dir : MigrationDirection) (max : Int) (ig : Bool)
    (hchk : ig = true ∨ ∀ r ∈ recs, ∃ m ∈ M, m.Id = r)
    (hne : recs ≠ []) :
    (planMigrationCommon M recs dir max (-1) ig =
      .ok (((M.filter (fun m =>
              !(recs.any (fun r => r == m.Id)) &&
              m.Less (planCursor (sortById (recs.map recordStub))))).map
            (fun m => ⟨m, m.Up, m.DisableTransactionUp⟩)) ++
        ((toApplyMigrations M
            (planCursor (sortById (recs.map recordStub))).Id dir).take
          (if max > 0 ∧
              max < ((toApplyMigrations M
                (planCursor (sortById (recs.map recordStub))).Id dir).length : Int)
           then max.toNat
           else (toApplyMigrations M
             (planCursor (sortById (recs.map recordStub))).Id dir).length)).map
          (plannedFor dir))) ∧
    (List.Pairwise (fun a b => a.Less b = true) M →
      List.Pairwise (fun a b : PlannedMigration =>
          a.Migration.Less b.Migration = true)
        ((M.filter (fun m =>
            !(recs.any (fun r => r == m.Id)) &&
            m.Less (planCursor (sortById (recs.map recordStub))))).map
          (fun m => ⟨m, m.Up, m.DisableTransactionUp⟩))) ∧
    (∀ (d2 : MigrationDirection) (max2 : Int) (ig2 : Bool),
      planMigrationCommon M [] d2 max2 (-1) ig2 =
        .ok (((toApplyMigrations M "" d2).take
            (if max2 > 0 ∧
                max2 < ((toApplyMigrations M "" d2).length : Int)
             then max2.toNat else (toApplyMigrations M "" d2).length)).map
          (plannedFor d2))) := by
  refine ⟨?_, ?_, ?_⟩
  · rw [planMigrationCommon_eq_planBody M recs dir max (-1) ig hchk]
    have hlen : (sortById (recs.map recordStub)).length > 0 := by
      rw [(sortById_perm (recs.map recordStub)).length_eq, List.length_map]
      cases recs with
      | nil => exact absurd rfl hne
      | cons r rs => simp
    simp only [planBody, if_pos hlen]
    have hver : ¬((-1 : Int) ≥ 0) := by omega
    rw [if_neg hver]  -- may not be an ite; adjust as needed
    rw [toCatchup_eq]
    have hfc : ∀ m : Migration,
        (!((sortById (recs.map recordStub)).any (fun e => e.Id == m.Id)) &&
          m.Less (planCursor (sortById (recs.map recordStub)))) =
        (!(recs.any (fun r => r == m.Id)) &&
          m.Less (planCursor (sortById (recs.map recordStub)))) := by
      intro m
      rw [existing_any_eq]
    rw [List.filter_congr (fun m _ => hfc m)]
    rfl
  · intro hp
    rw [List.pairwise_map]
    exact (hp.filter _).imp (fun h => h)
  · intro d2 max2 ig2
    have : planMigrationCommon M [] d2 max2 (-1) ig2 =
        planBody M (sortById ([].map recordStub)) d2 max2 (-1) :=
      planMigrationCommon_eq_planBody M [] d2 max2 (-1) ig2
        (Or.inr (by intro r hr; cases hr))
    rw [this]
    simp only [planBody, List.map_nil, sortById, List.foldr_nil]
    rfl

/-- The `001`/`002`/`003` migrations of the spec's catch-up example. -/
def demo001 : Migration := ⟨"001", ["u1"], ["d1"], false, false⟩

def demo002 : Migration := ⟨"002", ["u2"], ["d2"], false, false⟩

def demo003 : Migration := ⟨"003", ["u3"], ["d3"], false, false⟩

def demoC : List Migration := [demo001, demo002, demo003]

/-- Witness for C2: history `001`,`003` with a gap at `002`. -/
theorem plan_catchup_steps_witness :
    (planMigrationCommon demoC ["001", "003"] .Up 0 (-1) false =
      .ok (((demoC.filter (fun m =>
              !(["001", "003"].any (fun r => r == m.Id)) &&
              m.Less (planCursor (sortById (["001", "003"].map recordStub))))).map
            (fun m => ⟨m, m.Up, m.DisableTransactionUp⟩)) ++
        ((toApplyMigrations demoC
            (planCursor (sortById (["001", "003"].map recordStub))).Id .Up).take
          (if (0 : Int) > 0 ∧
              (0 : Int) < ((toApplyMigrations demoC
                (planCursor (sortById (["001", "003"].map recordStub))).Id .Up).length : Int)
           then (0 : Int).toNat
           else (toApplyMigrations demoC
             (planCursor (sortById (["001", "003"].map recordStub))).Id .Up).length)).map
          (plannedFor .Up))) ∧
    (List.Pairwise (fun a b => a.Less b = true) demoC →
      List.Pairwise (fun a b : PlannedMigration =>
          a.Migration.Less b.Migration = true)
        ((demoC.filter (fun m =>
            !(["001", "003"].any (fun r => r == m.Id)) &&
            m.Less (planCursor (sortById (["001", "003"].map recordStub))))).map
          (fun m => ⟨m, m.Up, m.DisableTransactionUp⟩))) ∧
    (∀ (d2 : MigrationDirection) (max2 : Int) (ig2 : Bool),
      planMigrationCommon demoC [] d2 max2 (-1) ig2 =
        .ok (((toApplyMigrations demoC "" d2).take
            (if max2 > 0 ∧
                max2 < ((toApplyMigrations demoC "" d2).length : Int)
             then max2.toNat else (toApplyMigrations demoC "" d2).length)).map
          (plannedFor d2))) :=
  plan_catchup_steps demoC ["001", "003"] .Up 0 false
    (Or.inr (by decide)) (by decide)


/-- The five migrations of `TestAlphaNumericMigrations`, in its
construction order. -/
def alphaTest : List Migration :=
  [⟨"10_abc", [], [], false, false⟩,
   ⟨"1_abc", [], [], false, false⟩,
   ⟨"efg", [], [], false, false⟩,
   ⟨"2_cde", [], [], false, false⟩,
   ⟨"35_cde", [], [], false, false⟩]

/-- The same five migrations in plain lexicographic order of their Ids. -/
def alphaLex : List Migration :=
  [⟨"10_abc", [], [], false, false⟩,
   ⟨"1_abc", [], [], false, false⟩,
   ⟨"2_cde", [], [], false, false⟩,
   ⟨"35_cde", [], [], false, false⟩,
   ⟨"efg", [], [], false, false⟩]

/-- Counterexample to C3: the repository's own alphanumeric ordering test
refutes plain lexicographic Id order.  `alphaLex` is the five-element test
set sorted by plain string comparison; running the planner's candidate
filter over it after cursor `2_cde` yields Up candidates other than the
`10_abc`,`35_cde`,`efg` the test `TestAlphaNumericMigrations` asserts, and
the sort the source performs disagrees with the lexicographic one. -/
theorem migration_order_not_lex :
    List.Pairwise (fun a b : Migration => strLt a.Id b.Id = true) alphaLex ∧
    alphaLex.Perm alphaTest ∧
    (toApplyMigrations alphaLex "2_cde" .Up).map Migration.Id ≠
      ["10_abc", "35_cde", "efg"] ∧
    (sortById alphaTest).map Migration.Id ≠ alphaLex.map Migration.Id := by
  refine ⟨?_, ?_, ?_, ?_⟩ <;> decide

/-- C3 (amended): migrations are ordered by the numeric-prefix-aware
comparison — numeric-prefixed Ids sort before non-numeric ones, numeric
prefixes compare by integer value, non-numeric Ids compare by plain string
order — and both the sorting and the planner's strictly-before relation
(`toCatchup`) use this order, reproducing every assertion of
`TestAlphaNumericMigrations`. -/
theorem migration_order_alpha :
    (sortById alphaTest).map Migration.Id =
      ["1_abc", "2_cde", "10_abc", "35_cde", "efg"] ∧
    (toApplyMigrations (sortById alphaTest) "2_cde" .Up).map Migration.Id =
      ["10_abc", "35_cde", "efg"] ∧
    (toApplyMigrations (sortById alphaTest) "2_cde" .Down).map Migration.Id =
      ["2_cde", "1_abc"] ∧
    (toCatchup (sortById alphaTest) [recordStub "35_cde"]
        (recordStub "35_cde")).map PlannedMigration.Id =
      ["1_abc", "2_cde", "10_abc"] := by
  refine ⟨?_, ?_, ?_, ?_⟩ <;> decide


theorem applyMigration_err_id (env : DbEnv) (dir : MigrationDirection)
    (st : DbState) (m : PlannedMigration) (st1 : DbState) (e : TxError)
    (h : applyMigration env dir st m = (st1, some e)) :
    e.migrationId = m.Id := by
  rcases hrs : runStmts env st m.Queries with ⟨st2, f⟩
  cases dir <;> cases f <;>
    simp only [applyMigration, hrs] at h <;>
    split at h <;>
    (repeat' split at h) <;>
    first | (cases h; rfl) | cases h

/-- C6: planned steps execute strictly sequentially; when the run reports
an error, the count `n` equals the number of steps fully applied before the
failure (the first `n` steps run cleanly), the error carries the identity
of step `n`, and the run's outcome is already determined by the first
`n + 1` steps — later steps are never attempted. -/
theorem applyMigrations_fail_fast (env : DbEnv) (dir : MigrationDirection)
    (st : DbState) (plan : List PlannedMigration) (n : Nat) (st' : DbState)
    (e : TxError)
    (h : applyMigrations env dir st plan = (n, st', some e)) :
    ∃ (hn : n < plan.length),
      e.migrationId = (plan.get ⟨n, hn⟩).Id ∧
      (∃ stMid, applyMigrations env dir st (plan.take n) = (n, stMid, none) ∧
        applyMigration env dir stMid (plan.get ⟨n, hn⟩) = (st', some e)) ∧
      applyMigrations env dir st (plan.take (n + 1)) = (n, st', some e) := by
  induction plan generalizing st n with
  | nil => simp [applyMigrations] at h
  | cons m rest ih =>
    rcases happ : applyMigration env dir st m with ⟨stA, eA⟩
    cases eA with
    | some e2 =>
      simp only [applyMigrations, happ, Prod.mk.injEq] at h
      obtain ⟨h1, h2, h3⟩ := h
      subst h1
      subst h2
      cases h3
      refine ⟨by simp, ?_, ⟨st, ?_, ?_⟩, ?_⟩
      · exact applyMigration_err_id env dir st m _ e happ
      · simp [applyMigrations]
      · simpa using happ
      · simp only [List.take_succ_cons, List.take_zero]
        simp only [applyMigrations, happ]
    | none =>
      rcases hrest : applyMigrations env dir stA rest with ⟨n2, st2, e2⟩
      simp only [applyMigrations, happ, hrest, Prod.mk.injEq] at h
      obtain ⟨h1, h2, h3⟩ := h
      subst h1
      subst h2
      rw [h3] at hrest
      obtain ⟨hn2, hid, ⟨stMid, htake, hfail⟩, htake1⟩ := ih stA n2 hrest
      refine ⟨by simpa using Nat.succ_lt_succ hn2, ?_, ⟨stMid, ?_, ?_⟩, ?_⟩
      · simpa using hid
      · simp only [List.take_succ_cons]
        simp only [applyMigrations, happ, htake]
      · simpa using hfail
      · simp only [List.take_succ_cons]
        simp only [applyMigrations, happ, htake1]

/-- A driver environment in which only the statement `u2` fails. -/
def failEnv : DbEnv :=
  { execFails := fun s => s == "u2"
    saveFails := fun _ => false
    deleteFails := fun _ => false
    beginFails := false
    commitFails := fun _ => false }

/-- A three-step up plan whose second step runs the failing statement. -/
def demoPlan : List PlannedMigration :=
  [⟨demo001, ["u1"], false⟩, ⟨demo002, ["u2"], false⟩, ⟨demo003, ["u3"], false⟩]

/-- Witness for C6: the second of three steps fails; one step was applied,
the error names `002`, and the third step is never attempted. -/
theorem applyMigrations_fail_fast_witness :
    ∃ (hn : 1 < demoPlan.length),
      (⟨"002", DbErr.execErr "u2"⟩ : TxError).migrationId =
        (demoPlan.get ⟨1, hn⟩).Id ∧
      (∃ stMid, applyMigrations failEnv .Up DbState.empty (demoPlan.take 1) =
          (1, stMid, none) ∧
        applyMigration failEnv .Up stMid (demoPlan.get ⟨1, hn⟩) =
          (⟨["001"], ["u1"], ["001"], []⟩,
            some ⟨"002", DbErr.execErr "u2"⟩)) ∧
      applyMigrations failEnv .Up DbState.empty (demoPlan.take 2) =
        (1, ⟨["001"], ["u1"], ["001"], []⟩,
          some ⟨"002", DbErr.execErr "u2"⟩) :=
  applyMigrations_fail_fast failEnv .Up DbState.empty demoPlan 1
    ⟨["001"], ["u1"], ["001"], []⟩ ⟨"002", DbErr.execErr "u2"⟩ (by decide)


/-- C7: for a step whose transaction-disable flag is unset, the statements
and the bookkeeping write run inside one transaction: any failure — begin,
statement, bookkeeping insert or delete, commit — leaves the database state
unchanged and the error carries that migration's identity; and when the
statements and the bookkeeping operation succeed but the commit fails, the
step returns exactly the commit error wrapped with the migration's
identity. -/
theorem applyMigration_transactional (env : DbEnv) (dir : MigrationDirection)
    (st : DbState) (m : PlannedMigration)
    (htx : m.DisableTransaction = false) :
    (∀ st' e, applyMigration env dir st m = (st', some e) →
      st' = st ∧ e.migrationId = m.Id) ∧
    ((runStmts env st m.Queries).2 = none →
      env.beginFails = false →
      (dir = .Up → env.saveFails m.Id = false) →
      (dir = .Down → env.deleteFails m.Id = false) →
      env.commitFails m.Id = true →
      applyMigration env dir st m = (st, some ⟨m.Id, .commitErr⟩)) := by
  constructor
  · intro st' e h
    rcases hrs : runStmts env st m.Queries with ⟨st2, f⟩
    cases dir <;> cases f <;>
      simp only [applyMigration, htx, Bool.false_eq_true, if_false, hrs] at h <;>
      split at h <;>
      (repeat' split at h) <;>
      first | (cases h; exact ⟨rfl, rfl⟩) | cases h
  · intro hnone hbegin hsave hdel hcommit
    rcases hrs : runStmts env st m.Queries with ⟨st2, f⟩
    rw [hrs] at hnone
    simp at hnone
    subst hnone
    cases dir with
    | Up =>
      simp only [applyMigration, htx, Bool.false_eq_true, if_false, hbegin,
        hrs, hsave rfl, hcommit, if_true]
    | Down =>
      simp only [applyMigration, htx, Bool.false_eq_true, if_false, hbegin,
        hrs, hdel rfl, hcommit, if_true]

/-- A driver environment in which only the transaction commit fails. -/
def commitFailEnv : DbEnv :=
  { execFails := fun _ => false
    saveFails := fun _ => false
    deleteFails := fun _ => false
    beginFails := false
    commitFails := fun _ => true }

/-- Witness for C7: one transactional up-step under a failing commit. -/
theorem applyMigration_transactional_witness :
    (∀ st' e, applyMigration commitFailEnv .Up DbState.empty
        ⟨demo001, ["u1"], false⟩ = (st', some e) →
      st' = DbState.empty ∧
      e.migrationId = (⟨demo001, ["u1"], false⟩ : PlannedMigration).Id) ∧
    ((runStmts commitFailEnv DbState.empty ["u1"]).2 = none →
      commitFailEnv.beginFails = false →
      (MigrationDirection.Up = .Up →
        commitFailEnv.saveFails
          (⟨demo001, ["u1"], false⟩ : PlannedMigration).Id = false) →
      (MigrationDirection.Up = .Down →
        commitFailEnv.deleteFails
          (⟨demo001, ["u1"], false⟩ : PlannedMigration).Id = false) →
      commitFailEnv.commitFails
        (⟨demo001, ["u1"], false⟩ : PlannedMigration).Id = true →
      applyMigration commitFailEnv .Up DbState.empty
          ⟨demo001, ["u1"], false⟩ =
        (DbState.empty,
          some ⟨(⟨demo001, ["u1"], false⟩ : PlannedMigration).Id,
            .commitErr⟩)) :=
  applyMigration_transactional commitFailEnv .Up DbState.empty
    ⟨demo001, ["u1"], false⟩ (by decide)


theorem saveMigration_cases (env : DbEnv) (st : DbState)
    (m : PlannedMigration) (st1 : DbState) (e : Option TxError)
    (h : saveMigration env st m = (st1, e)) :
    (e = none ∧ st1 = st.save m.Id) ∨ (∃ e', e = some e' ∧ st1 = st) := by
  unfold saveMigration at h
  split at h <;>
    (repeat' split at h) <;>
    cases h <;>
    first
      | exact Or.inl ⟨rfl, rfl⟩
      | exact Or.inr ⟨_, rfl, rfl⟩

/-- C9 (amended): skip mode runs the same planner output but performs only
the bookkeeping write — an insert for every planned step regardless of the
requested direction — never executing any step's statement list and never
deleting a record; the returned count equals the number of records written,
and nothing outside the bookkeeping records/insert log changes. -/
theorem skipMax_only_bookkeeping (env : DbEnv) (st : DbState)
    (M : List Migration) (recs : List String) (dir : MigrationDirection)
    (max : Int) (ig : Bool) (plan : List PlannedMigration) (n : Nat)
    (st' : DbState) (e : Option TxError)
    (hplan : planMigrationCommon M recs dir max (-1) ig = .ok plan)
    (hrun : skipSteps env st plan = (n, st', e)) :
    skipMax env st M recs dir max ig = (n, st', e.map .inr) ∧
    st'.applied = st.applied ∧ st'.deletes = st.deletes ∧
    st'.records = st.records ++ (plan.take n).map PlannedMigration.Id ∧
    st'.inserts = st.inserts ++ (plan.take n).map PlannedMigration.Id ∧
    (e = none → n = plan.length) := by
  have hmain : ∀ (plan2 : List PlannedMigration) (st0 : DbState) (n2 : Nat)
      (st2 : DbState) (e2 : Option TxError),
      skipSteps env st0 plan2 = (n2, st2, e2) →
      st2.applied = st0.applied ∧ st2.deletes = st0.deletes ∧
      st2.records = st0.records ++ (plan2.take n2).map PlannedMigration.Id ∧
      st2.inserts = st0.inserts ++ (plan2.take n2).map PlannedMigration.Id ∧
      (e2 = none → n2 = plan2.length) := by
    intro plan2
    induction plan2 with
    | nil =>
      intro st0 n2 st2 e2 h
      simp only [skipSteps, Prod.mk.injEq] at h
      obtain ⟨h1, h2, h3⟩ := h
      subst h1; subst h2; subst h3
      simp
    | cons m rest ih =>
      intro st0 n2 st2 e2 h
      rcases hsv : saveMigration env st0 m with ⟨stA, eA⟩
      rcases saveMigration_cases env st0 m stA eA hsv with ⟨hA, hstA⟩ | ⟨e', hA, hstA⟩
      · subst hA
        subst hstA
        rcases hrest : skipSteps env (st0.save m.Id) rest with ⟨n3, st3, e3⟩
        simp only [skipSteps, hsv, hrest, Prod.mk.injEq] at h
        obtain ⟨h1, h2, h3⟩ := h
        subst h1; subst h2; subst h3
        obtain ⟨ha, hd, hr, hi, hlen⟩ := ih _ _ _ _ hrest
        refine ⟨?_, ?_, ?_, ?_, ?_⟩
        · simpa [DbState.save] using ha
        · simpa [DbState.save] using hd
        · rw [hr]
          simp [DbState.save, List.take_succ_cons]
        · rw [hi]
          simp [DbState.save, List.take_succ_cons]
        · intro he
          simp [hlen he]
      · subst hA
        subst hstA
        simp only [skipSteps, hsv, Prod.mk.injEq] at h
        obtain ⟨h1, h2, h3⟩ := h
        subst h1; subst h2; subst h3
        simp
  obtain ⟨ha, hd, hr, hi, hlen⟩ := hmain plan st n st' e hrun
  refine ⟨?_, ha, hd, hr, hi, hlen⟩
  simp only [skipMax, hplan, hrun]
  cases e <;> rfl

/-- Counterexample to C9 as stated: skipping a Down plan of one step over
history `001` *inserts* a duplicate bookkeeping record instead of deleting
one — the final state holds records `001`,`001` and an empty delete log,
where the claim's per-direction delete would leave no record and one
deletion. -/
theorem skipMax_down_counterexample :
    skipMax okEnv ⟨["001"], [], [], []⟩ [demo001] ["001"] .Down 0 false =
      (1, ⟨["001", "001"], [], ["001"], []⟩, none) := by
  decide

/-- Witness for the amended C9: skipping the full Up plan of the three-step
set writes three records and executes nothing. -/
theorem skipMax_only_bookkeeping_witness :
    skipMax okEnv DbState.empty demoC [] .Up 0 false =
      (3, ⟨["001", "002", "003"], [], ["001", "002", "003"], []⟩,
        Option.map Sum.inr none) ∧
    (⟨["001", "002", "003"], [], ["001", "002", "003"], []⟩ :
        DbState).applied = DbState.empty.applied ∧
    (⟨["001", "002", "003"], [], ["001", "002", "003"], []⟩ :
        DbState).deletes = DbState.empty.deletes ∧
    (⟨["001", "002", "003"], [], ["001", "002", "003"], []⟩ :
        DbState).records = DbState.empty.records ++
      (([⟨demo001, ["u1"], false⟩, ⟨demo002, ["u2"], false⟩,
         ⟨demo003, ["u3"], false⟩] :
          List PlannedMigration).take 3).map PlannedMigration.Id ∧
    (⟨["001", "002", "003"], [], ["001", "002", "003"], []⟩ :
        DbState).inserts = DbState.empty.inserts ++
      (([⟨demo001, ["u1"], false⟩, ⟨demo002, ["u2"], false⟩,
         ⟨demo003, ["u3"], false⟩] :
          List PlannedMigration).take 3).map PlannedMigration.Id ∧
    ((none : Option TxError) = none →
      3 = ([⟨demo001, ["u1"], false⟩, ⟨demo002, ["u2"], false⟩,
            ⟨demo003, ["u3"], false⟩] :
          List PlannedMigration).length) :=
  skipMax_only_bookkeeping okEnv DbState.empty demoC [] .Up 0 false
    [⟨demo001, ["u1"], false⟩, ⟨demo002, ["u2"], false⟩,
     ⟨demo003, ["u3"], false⟩] 3
    ⟨["001", "002", "003"], [], ["001", "002", "003"], []⟩ none
    (by rfl) (by decide)


/-- The state update of one fully successful step. -/
def okStep (dir : MigrationDirection) (st : DbState)
    (m : PlannedMigration) : DbState :=
  let st1 := { st with applied := st.applied ++ m.Queries.map trimStmt }
  match dir with
  | .Up => st1.save m.Id
  | .Down => st1.del m.Id

@[simp] theorem okEnv_execFails (s : String) : okEnv.execFails s = false := rfl

@[simp] theorem okEnv_saveFails (s : String) : okEnv.saveFails s = false := rfl

@[simp] theorem okEnv_deleteFails (s : String) : okEnv.deleteFails s = false := rfl

@[simp] theorem okEnv_beginFails : okEnv.beginFails = false := rfl

@[simp] theorem okEnv_commitFails (s : String) : okEnv.commitFails s = false := rfl

theorem runStmts_okEnv (st : DbState) (qs : List String) :
    runStmts okEnv st qs =
      ({ st with applied := st.applied ++ qs.map trimStmt }, none) := by
  induction qs generalizing st with
  | nil => simp [runStmts]
  | cons q rest ih =>
    simp only [runStmts, okEnv_execFails, Bool.false_eq_true, if_false,
      List.map_cons]
    rw [ih]
    simp

theorem applyMigration_okEnv (dir : MigrationDirection) (st : DbState)
    (m : PlannedMigration) :
    applyMigration okEnv dir st m = (okStep dir st m, none) := by
  cases hd : m.DisableTransaction <;> cases dir <;>
    simp [applyMigration, hd, runStmts_okEnv, okStep]

theorem applyMigrations_okEnv (dir : MigrationDirection) (st : DbState)
    (plan : List PlannedMigration) :
    applyMigrations okEnv dir st plan =
      (plan.length, plan.foldl (fun s p => okStep dir s p) st, none) := by
  induction plan generalizing st with
  | nil => simp [applyMigrations]
  | cons m rest ih =>
    simp only [applyMigrations, applyMigration_okEnv]
    rw [ih]
    simp

theorem foldUp_state (st : DbState) (plan : List PlannedMigration) :
    ((plan.foldl (fun s p => okStep .Up s p) st).records =
      st.records ++ plan.map PlannedMigration.Id) ∧
    ((plan.foldl (fun s p => okStep .Up s p) st).inserts =
      st.inserts ++ plan.map PlannedMigration.Id) ∧
    ((plan.foldl (fun s p => okStep .Up s p) st).deletes = st.deletes) := by
  induction plan generalizing st with
  | nil => simp
  | cons m rest ih =>
    simp only [List.foldl_cons, List.map_cons]
    obtain ⟨h1, h2, h3⟩ := ih (okStep .Up st m)
    refine ⟨?_, ?_, ?_⟩
    · rw [h1]
      simp [okStep, DbState.save]
    · rw [h2]
      simp [okStep, DbState.save]
    · rw [h3]
      simp [okStep, DbState.save]

theorem foldDown_state (st : DbState) (plan : List PlannedMigration) :
    ((plan.foldl (fun s p => okStep .Down s p) st).records =
      st.records.filter
        (fun r => !((plan.map PlannedMigration.Id).contains r))) ∧
    ((plan.foldl (fun s p => okStep .Down s p) st).deletes =
      st.deletes ++ plan.map PlannedMigration.Id) ∧
    ((plan.foldl (fun s p => okStep .Down s p) st).inserts = st.inserts) := by
  induction plan generalizing st with
  | nil => simp
  | cons m rest ih =>
    simp only [List.foldl_cons, List.map_cons]
    obtain ⟨h1, h2, h3⟩ := ih (okStep .Down st m)
    refine ⟨?_, ?_, ?_⟩
    · rw [h1]
      simp only [okStep, DbState.del]
      rw [List.filter_filter]
      apply List.filter_congr
      intro r hr
      simp [List.contains_cons]
      rw [Bool.and_comm]
    · rw [h2]
      simp [okStep, DbState.del]
    · rw [h3]
      simp [okStep, DbState.del]

theorem insertById_sorted (m : Migration) (l : List Migration)
    (h : ∀ y ∈ l, m.Less y = true) : insertById m l = m :: l := by
  cases l with
  | nil => rfl
  | cons x xs => simp [insertById, h x (by simp)]

theorem sortById_sorted_fix (l : List Migration)
    (h : List.Pairwise (fun a b => a.Less b = true) l) : sortById l = l := by
  induction l with
  | nil => rfl
  | cons x xs ih =>
    obtain ⟨hx, hxs⟩ := List.pairwise_cons.mp h
    simp only [sortById, List.foldr_cons]
    have : xs.foldr insertById [] = xs := ih hxs
    rw [this]
    exact insertById_sorted x xs hx

theorem toApply_empty_up (M : List Migration) :
    toApplyMigrations M "" .Up = M := by
  unfold toApplyMigrations findIndexCursor
  simp

theorem plan_up_empty_history (M : List Migration) :
    planMigrationCommon M [] .Up 0 (-1) false = .ok (M.map (plannedFor .Up)) := by
  rw [planMigrationCommon_eq_planBody M [] .Up 0 (-1) false
    (Or.inr (by intro r hr; cases hr))]
  simp only [List.map_nil, sortById, List.foldr_nil]
  simp only [planBody, planCursor, List.getLast?_nil, List.length_nil]
  have h1 : toApplyMigrations M Migration.zero.Id .Up = M := toApply_empty_up M
  simp only [Migration.zero] at h1 ⊢
  rw [h1]
  have h2 : ¬((0 : Int) > 0 ∧ (0 : Int) < (M.length : Int)) := by omega
  have h3 : ¬((-1 : Int) ≥ 0) := by omega
  simp only [gt_iff_lt, Nat.lt_irrefl, if_false, h2]
  rw [if_neg h3]
  show Except.ok ([] ++ (M.take M.length).map (plannedFor .Up)) = _
  rw [List.take_length, List.nil_append]

theorem stubList_pairwise (M : List Migration)
    (hsort : List.Pairwise (fun a b => a.Less b = true) M) :
    List.Pairwise (fun a b => a.Less b = true)
      ((M.map Migration.Id).map recordStub) := by
  rw [List.map_map, List.pairwise_map]
  exact hsort.imp (fun h => h)

theorem plan_down_full (M : List Migration)
    (hsort : List.Pairwise (fun a b => a.Less b = true) M)
    (hnd : (M.map Migration.Id).Nodup)
    (hne : ∀ m ∈ M, m.Id ≠ "") :
    planMigrationCommon M (M.map Migration.Id) .Down 0 (-1) false =
      .ok (M.reverse.map (plannedFor .Down)) := by
  have hchk : (false = true) ∨ ∀ r ∈ M.map Migration.Id, ∃ m ∈ M, m.Id = r := by
    refine Or.inr ?_
    intro r hr
    obtain ⟨m, hm, hid⟩ := List.mem_map.mp hr
    exact ⟨m, hm, hid⟩
  rw [planMigrationCommon_eq_planBody M (M.map Migration.Id) .Down 0 (-1)
    false hchk]
  have hfix : sortById ((M.map Migration.Id).map recordStub) =
      (M.map Migration.Id).map recordStub :=
    sortById_sorted_fix _ (stubList_pairwise M hsort)
  rw [hfix]
  cases hM : M with
  | nil => rfl
  | cons m0 rest =>
    have hMne : M ≠ [] := by rw [hM]; exact List.cons_ne_nil m0 rest
    rw [← hM]
    -- cursor is the stub of the last migration
    have hcursor : planCursor ((M.map Migration.Id).map recordStub) =
        recordStub (M.getLast hMne).Id := by
      unfold planCursor
      rw [List.getLast?_map, List.getLast?_map,
        List.getLast?_eq_getLast M hMne]
      rfl
    -- catch-up is empty: every migration is found among the records
    have hcatch : toCatchup M ((M.map Migration.Id).map recordStub)
        (recordStub (M.getLast hMne).Id) = [] := by
      rw [toCatchup]
      rw [List.filterMap_eq_nil]
      intro m hm
      have hfound : ((M.map Migration.Id).map recordStub).any
          (fun existing => existing.Id == m.Id) = true := by
        rw [List.any_eq_true]
        refine ⟨recordStub m.Id, ?_, ?_⟩
        · exact List.mem_map_of_mem recordStub (List.mem_map_of_mem Migration.Id hm)
        · simp [recordStub]
      simp [hfound]
      intro hall
      exact absurd rfl (hall m hm)
    -- the primary candidates are all of M, reversed
    have hlast : (M.getLast hMne).Id ≠ "" := hne _ (List.getLast_mem hMne)
    have hk : M.length - 1 < M.length := by
      rw [hM]; simp
    have hgetlast : M.get ⟨M.length - 1, hk⟩ = M.getLast hMne :=
      (List.getLast_eq_get M hMne).symm
    have hscan := cursorScan_get (M.getLast hMne).Id M (M.length - 1) hk hnd
      (by rw [hgetlast])
    have htoapply : toApplyMigrations M (M.getLast hMne).Id .Down =
        M.reverse := by
      unfold toApplyMigrations findIndexCursor
      rw [if_neg hlast, hscan]
      have hne2 : ¬(((M.length - 1 : Nat) : Int) = -1) := by omega
      have h1 : (((M.length - 1 : Nat) : Int) + 1).toNat = M.length := by
        have hge : 1 ≤ M.length := by rw [hM]; simp
        omega
      simp only [hne2, ite_false, h1, List.take_length]
    have hlen : ((M.map Migration.Id).map recordStub).length > 0 := by
      rw [hM]; simp
    have hstub : (recordStub (M.getLast hMne).Id).Id = (M.getLast hMne).Id := rfl
    simp only [planBody, hcursor, hstub, hcatch, if_pos hlen, htoapply]
    have h3 : ¬((-1 : Int) ≥ 0) := by omega
    rw [if_neg h3]
    show Except.ok ([] ++ (M.reverse.take _).map (plannedFor .Down)) = _
    have h2 : ¬((0 : Int) > 0 ∧ (0 : Int) < (M.reverse.length : Int)) := by
      omega
    rw [if_neg h2, List.take_length, List.nil_append]

/-- C8: starting from an empty history, the full Up plan is every
migration in order; executing it inserts exactly the migration Ids in
order; planning Down from the resulting records yields every migration
reversed; executing that deletes every record — the bookkeeping set ends
empty and the delete sequence is the exact reverse of the insert
sequence. -/
theorem up_down_round_trip (M : List Migration)
    (hsort : List.Pairwise (fun a b => a.Less b = true) M)
    (hnd : (M.map Migration.Id).Nodup)
    (hne : ∀ m ∈ M, m.Id ≠ "") :
    ∃ stU stD,
      planMigrationCommon M [] .Up 0 (-1) false =
        .ok (M.map (plannedFor .Up)) ∧
      applyMigrations okEnv .Up DbState.empty (M.map (plannedFor .Up)) =
        ((M.map (plannedFor .Up)).length, stU, none) ∧
      stU.records = M.map Migration.Id ∧
      stU.inserts = M.map Migration.Id ∧
      planMigrationCommon M stU.records .Down 0 (-1) false =
        .ok (M.reverse.map (plannedFor .Down)) ∧
      applyMigrations okEnv .Down stU (M.reverse.map (plannedFor .Down)) =
        ((M.reverse.map (plannedFor .Down)).length, stD, none) ∧
      stD.records = [] ∧
      stD.deletes = stU.inserts.reverse := by
  have hidU : (M.map (plannedFor .Up)).map PlannedMigration.Id =
      M.map Migration.Id := by
    rw [List.map_map]
    rfl
  have hidD : (M.reverse.map (plannedFor .Down)).map PlannedMigration.Id =
      (M.map Migration.Id).reverse := by
    rw [List.map_map, ← List.map_reverse]
    rfl
  obtain ⟨hrecU, hinsU, hdelU⟩ :=
    foldUp_state DbState.empty (M.map (plannedFor .Up))
  set stU := (M.map (plannedFor .Up)).foldl
    (fun s p => okStep .Up s p) DbState.empty with hstU
  obtain ⟨hrecD, hdelD, hinsD⟩ :=
    foldDown_state stU (M.reverse.map (plannedFor .Down))
  set stD := (M.reverse.map (plannedFor .Down)).foldl
    (fun s p => okStep .Down s p) stU with hstD
  have hrecU2 : stU.records = M.map Migration.Id := by
    rw [hrecU, hidU]
    rfl
  have hinsU2 : stU.inserts = M.map Migration.Id := by
    rw [hinsU, hidU]
    rfl
  refine ⟨stU, stD, plan_up_empty_history M,
    applyMigrations_okEnv .Up DbState.empty _, hrecU2, hinsU2, ?_, ?_, ?_, ?_⟩
  · rw [hrecU2]
    exact plan_down_full M hsort hnd hne
  · exact applyMigrations_okEnv .Down stU _
  · rw [hrecD, hrecU2, hidD]
    rw [List.filter_eq_nil]
    intro r hr
    simp only [Bool.not_eq_true, Bool.not_eq_false]
    have hmem : r ∈ (M.map Migration.Id).reverse := List.mem_reverse.mpr hr
    simpa [List.contains, List.elem_iff] using hmem
  · rw [hdelD, hidD, hinsU2]
    have : stU.deletes = [] := by
      rw [hdelU]
      rfl
    rw [this, List.nil_append]

/-- Witness for C8: the `001`,`002`,`003` set round-trips to an empty
bookkeeping table with deletions in reverse insertion order. -/
theorem up_down_round_trip_witness :
    ∃ stU stD,
      planMigrationCommon demoC [] .Up 0 (-1) false =
        .ok (demoC.map (plannedFor .Up)) ∧
      applyMigrations okEnv .Up DbState.empty (demoC.map (plannedFor .Up)) =
        ((demoC.map (plannedFor .Up)).length, stU, none) ∧
      stU.records = demoC.map Migration.Id ∧
      stU.inserts = demoC.map Migration.Id ∧
      planMigrationCommon demoC stU.records .Down 0 (-1) false =
        .ok (demoC.reverse.map (plannedFor .Down)) ∧
      applyMigrations okEnv .Down stU (demoC.reverse.map (plannedFor .Down)) =
        ((demoC.reverse.map (plannedFor .Down)).length, stD, none) ∧
      stD.records = [] ∧
      stD.deletes = stU.inserts.reverse :=
  up_down_round_trip demoC (by decide) (by decide) (by decide)

end SqlMigrate
